import Mathlib

/-!
Verification development for the claude-telegram-bot daemon
(`telegram_bot.py`).  The Python program is shallowly embedded: the
`SessionStore` (two Python dicts guarded by one lock) becomes a pair of
insertion-ordered association lists, every store operation becomes a pure
state transformer, the tmux injection helpers return the boolean result of
the Python function together with the ordered trace of external `tmux`
calls they issue, and the Telegram handlers become store transformers that
also return the acknowledgment sent back to the user.  Wall-clock reads
(`time.time()`, `int(time.time()*1000)`) are passed in as explicit
arguments; the `tmux has-session` probe outcome is an explicit oracle
`String → Bool`.
-/

namespace ClaudeTelegramBot

/-! ### Python dict and list primitives

A Python `dict` is an insertion-ordered map with unique keys; we embed it
as an association list whose keys are pairwise distinct in every state the
program can reach.  The four operations below reproduce, respectively,
`d.get(k)` / `d[k]`, `d[k] = v`, `d.pop(k, None)` (dropping the returned
value) and in-place mutation of the value stored under an existing key.
-/

/-- Lookup modelling Python `d.get(k)`: value of the first entry whose key
matches. -/
def dget {κ α : Type} [DecidableEq κ] (k : κ) : List (κ × α) → Option α
  | [] => none
  | (k2, v) :: rest => if k2 = k then some v else dget k rest

/-- Insertion modelling Python `d[k] = v`: overwrite in place if the key is
present (keeping its position, as a Python dict does), else append. -/
def dinsert {κ α : Type} [DecidableEq κ] (k : κ) (v : α) : List (κ × α) → List (κ × α)
  | [] => [(k, v)]
  | (k2, v2) :: rest => if k2 = k then (k, v) :: rest else (k2, v2) :: dinsert k v rest

/-- Removal modelling Python `d.pop(k, None)` with the returned value
discarded: drop the first entry whose key matches, no-op if absent. -/
def dpop {κ α : Type} [DecidableEq κ] (k : κ) : List (κ × α) → List (κ × α)
  | [] => []
  | (k2, v2) :: rest => if k2 = k then rest else (k2, v2) :: dpop k rest

/-- In-place mutation of the object stored under `k` (Python
`d[k].field = ...`): apply `f` to the first entry whose key matches, no-op
if absent. -/
def dmodify {κ α : Type} [DecidableEq κ] (k : κ) (f : α → α) : List (κ × α) → List (κ × α)
  | [] => []
  | (k2, v) :: rest => if k2 = k then (k2, f v) :: rest else (k2, v) :: dmodify k f rest

/-- Python list subscription `xs[i]` with an `int` index: non-negative
indices count from the front, negative indices from the back, anything out
of range raises `IndexError` (modelled as `none`). -/
def pyIndex {α : Type} (xs : List α) (i : Int) : Option α :=
  if 0 ≤ i then xs.get? i.toNat
  else if (-i).toNat ≤ xs.length then xs.get? (xs.length - (-i).toNat)
  else none

/-! ### Data model (`PendingQuestion`, `SessionStore`) -/

/-- One entry of a question's `options` list.  The Python side is a dict
read with `opt.get('label', ...)` / `opt.get('description', '')`, so both
fields may be absent. -/
structure OptionItem where
  label : Option String
  description : Option String
deriving DecidableEq

/-- One entry of the `questions` list of a notification (a Python dict read
with `q.get('question', ...)`, `q.get('options', [])`, `q.get('multiSelect')`). -/
structure SubQuestion where
  question : Option String
  options : List OptionItem
  multiSelect : Bool
deriving DecidableEq

/-- The `PendingQuestion` dataclass, field for field. -/
structure PendingQuestion where
  question_id : String
  session_id : String
  tmux_location : String
  questions : List SubQuestion
  timestamp : Int
  telegram_message_id : Int
  cwd : String
  answered : Bool
  answers : List (Int × String)
deriving DecidableEq

/-- The `SessionStore`: `self.pending` and `self._message_id_map`.  The
lock serializes every operation, so the store is modelled as a value
threaded through the (already serialized) operations. -/
structure SessionStore where
  pending : List (String × PendingQuestion)
  message_id_map : List (Int × String)
deriving DecidableEq

/-- The empty store built by `SessionStore.__init__`. -/
def store0 : SessionStore := ⟨[], []⟩

/-- `SessionStore.add_question`. -/
def add_question (s : SessionStore) (q : PendingQuestion) : SessionStore :=
  { pending := dinsert q.question_id q s.pending
    message_id_map := dinsert q.telegram_message_id q.question_id s.message_id_map }

/-- `SessionStore.get_by_message_id`.  The Python guard `if question_id:`
is a truthiness test, false for both a missing key and an empty string. -/
def get_by_message_id (s : SessionStore) (msg_id : Int) : Option PendingQuestion :=
  match dget msg_id s.message_id_map with
  | some question_id => if question_id = "" then none else dget question_id s.pending
  | none => none

/-- `SessionStore.get_latest_unanswered`: filter the unanswered questions
and take Python `max(..., key=lambda q: q.timestamp)`, which keeps the
first element among those with the maximal key. -/
def get_latest_unanswered (s : SessionStore) : Option PendingQuestion :=
  match (s.pending.map Prod.snd).filter (fun q => !q.answered) with
  | [] => none
  | x :: xs => some (xs.foldl (fun acc q => if q.timestamp > acc.timestamp then q else acc) x)

/-- `SessionStore.mark_answered`: set the flag on the stored object if the
identifier is present, otherwise do nothing. -/
def mark_answered (s : SessionStore) (question_id : String) : SessionStore :=
  { s with pending := dmodify question_id (fun q => { q with answered := true }) s.pending }

/-- The body of the removal loop of `SessionStore.cleanup_old`:
`q = self.pending.pop(qid, None); if q: self._message_id_map.pop(q.telegram_message_id, None)`.
A `PendingQuestion` instance is always truthy, so the guard only
distinguishes a present key from an absent one. -/
def removeQid (st : SessionStore) (qid : String) : SessionStore :=
  match dget qid st.pending with
  | some q =>
      { pending := dpop qid st.pending
        message_id_map := dpop q.telegram_message_id st.message_id_map }
  | none => st

/-- `SessionStore.cleanup_old`.  The first component is the store after the
sweep; the second component is the value the Python function returns to its
caller — the function body has no `return` statement, so it returns `None`,
embedded as `none` of an `Option Nat` (a would-be count). -/
def cleanup_old (now max_age_seconds : Int) (s : SessionStore) : SessionStore × Option Nat :=
  let to_remove :=
    (s.pending.filter (fun kv => now - kv.2.timestamp > max_age_seconds)).map Prod.fst
  (to_remove.foldl removeQid s, none)

/-! ### tmux injection

External effects of the two injectors, in issue order.  `sendLiteral` is
`tmux send-keys -t loc -l text`, `sendEnter` is `tmux send-keys -t loc
Enter`, `hasSession` is the `tmux has-session -t name` probe and `sleepCall`
is `time.sleep(0.8)`.  The probe outcome comes from the oracle `env`;
`send-keys` invocations are modelled as succeeding (their failure modes are
exception paths that none of the verified claims depend on). -/
inductive TmuxCall where
  | hasSession (name : String)
  | sendLiteral (target : String) (text : String)
  | sendEnter (target : String)
  | sleepCall
deriving DecidableEq

/-- Python `str.split(sep)` for a one-character separator, over the
character list (keeps empty pieces, exactly like Python). -/
def splitChar (c : Char) : List Char → List (List Char)
  | [] => [[]]
  | x :: xs =>
    match splitChar c xs with
    | [] => if x = c then [[], []] else [[x]]
    | y :: ys => if x = c then [] :: y :: ys else (x :: y) :: ys

/-- The `tmux_location.split(':')[0]` session-name extraction
(`split` always returns a non-empty list, so `[0]` never raises). -/
def session_name_of (tmux_location : String) : String :=
  String.mk ((splitChar ':' tmux_location.data).headD [])

/-- `inject_response_to_tmux`. -/
def inject_response_to_tmux (env : String → Bool) (tmux_location response : String)
    (send_enter : Bool := true) : Bool × List TmuxCall :=
  if tmux_location = "" ∨ tmux_location = "unknown" then (false, [])
  else
    let sname := session_name_of tmux_location
    if env sname then
      if send_enter then
        (true, [TmuxCall.hasSession sname, TmuxCall.sendLiteral tmux_location response,
                TmuxCall.sendEnter tmux_location])
      else
        (true, [TmuxCall.hasSession sname, TmuxCall.sendLiteral tmux_location response])
    else (false, [TmuxCall.hasSession sname])

/-- `inject_multiple_responses_to_tmux`.  The `for` loop is embedded as a
left fold accumulating the trace of the calls each iteration issues. -/
def inject_multiple_responses_to_tmux (env : String → Bool) (tmux_location : String)
    (responses : List String) : Bool × List TmuxCall :=
  if tmux_location = "" ∨ tmux_location = "unknown" then (false, [])
  else
    let sname := session_name_of tmux_location
    if env sname then
      let loopTrace := responses.foldl
        (fun acc response =>
          acc ++ [TmuxCall.sendLiteral tmux_location response,
                  TmuxCall.sendEnter tmux_location, TmuxCall.sleepCall]) []
      (true, TmuxCall.hasSession sname ::
        (loopTrace ++ [TmuxCall.sleepCall, TmuxCall.sendEnter tmux_location]))
    else (false, [TmuxCall.hasSession sname])

/-! ### HTTP hook handlers

`_handle_notify` and `_handle_stop` are embedded at the store level: the
body is parsed upstream, `bot.send_message` is modelled as succeeding and
returning a message whose identifier is the `telegram_msg_id` argument, and
the clock reads `int(time.time() * 1000)` / `time.time()` become the
explicit arguments `now_ms` / `now`.  The second component is the question
identifier echoed to the HTTP caller (`none` for the 400 error when no
questions are supplied). -/

/-- The `question_id = f"{session_id}_{int(time.time() * 1000)}"` line of
`_handle_notify`. -/
def make_question_id (session_id : String) (now_ms : Int) : String :=
  session_id ++ "_" ++ toString now_ms

/-- `HookRequestHandler._handle_notify`. -/
def handle_notify (s : SessionStore) (session_id tmux_location : String)
    (questions : List SubQuestion) (cwd : String) (now_ms now telegram_msg_id : Int) :
    SessionStore × Option String :=
  if questions = [] then (s, none)
  else
    let question_id := make_question_id session_id now_ms
    (add_question s
      { question_id := question_id
        session_id := session_id
        tmux_location := tmux_location
        questions := questions
        timestamp := now
        telegram_message_id := telegram_msg_id
        cwd := cwd
        answered := false
        answers := [] }, some question_id)

/-- `HookRequestHandler._handle_stop` (the `stop_reason` only feeds the
formatted Telegram text, which is out of scope). -/
def handle_stop (s : SessionStore) (tmux_location : String)
    (now_ms now telegram_msg_id : Int) : SessionStore × Option String :=
  let stop_id := "stop_" ++ toString now_ms
  (add_question s
    { question_id := stop_id
      session_id := "stop"
      tmux_location := tmux_location
      questions := []
      timestamp := now
      telegram_message_id := telegram_msg_id
      cwd := ""
      answered := false
      answers := [] }, some stop_id)

/-! ### Telegram callback handler -/

/-- A run of decimal digits read into a number, Python-style
(the accumulator form of `int()`'s digit loop). -/
def pyDigitsAux : List Char → Nat → Option Nat
  | [], acc => some acc
  | c :: rest, acc =>
      if c.isDigit then pyDigitsAux rest (acc * 10 + (c.toNat - 48)) else none

/-- Python `int(str)`: an optional sign followed by at least one digit
(Python additionally strips whitespace and accepts inner underscores, but
pieces produced by splitting on the underscore contain neither). -/
def pyInt : List Char → Option Int
  | [] => none
  | '-' :: rest =>
      if rest = [] then none else (pyDigitsAux rest 0).map (fun n => -((n : Int)))
  | '+' :: rest =>
      if rest = [] then none else (pyDigitsAux rest 0).map (fun n => ((n : Int)))
  | chars => (pyDigitsAux chars 0).map (fun n => ((n : Int)))

/-- Python `call.data.startswith("ans_")`. -/
def startsWithAns (data : String) : Bool :=
  "ans_".data.isPrefixOf data.data

/-- Parsing of `"ans_{question_idx}_{option_idx}"` callback data:
`parts = call.data.split('_'); q_idx = int(parts[1]); opt_idx = int(parts[2])`.
`none` is the caught `IndexError`/`ValueError` path (too few parts or a
non-integer part); note `int()` parses arbitrary signed integers. -/
def parse_ans (data : String) : Option (Int × Int) :=
  match (splitChar '_' data.data).get? 1, (splitChar '_' data.data).get? 2 with
  | some p1, some p2 =>
      match pyInt p1, pyInt p2 with
      | some q_idx, some opt_idx => some (q_idx, opt_idx)
      | _, _ => none
  | _, _ => none

/-- `opt.get('label', f'Option {opt_idx + 1}')`. -/
def labelOf (opt_idx : Int) (opt : OptionItem) : String :=
  opt.label.getD ("Option " ++ toString (opt_idx + 1))

/-- The answer-producing part of the `ans_` branch of `handle_callback`:
`options = pending.questions[q_idx].get('options', [])`, the
`opt_idx < len(options)` guard and `options[opt_idx].get('label', ...)`.
`none` covers both the caught `IndexError` (either subscription) and the
"Invalid option" branch. -/
def select_answer (questions : List SubQuestion) (q_idx opt_idx : Int) : Option String :=
  match pyIndex questions q_idx with
  | some q =>
      if opt_idx < (q.options.length : Int) then
        match pyIndex q.options opt_idx with
        | some opt => some (labelOf opt_idx opt)
        | none => none
      else none
  | none => none

/-- The in-place `pending.answers[q_idx] = answer` mutation of the `ans_`
branch, applied to the stored object. -/
def addAnswer (q_idx : Int) (answer : String) (p : PendingQuestion) : PendingQuestion :=
  { p with answers := dinsert q_idx answer p.answers }

/-- One option-selection event applied to the `answers` dict: the state
change `pending.answers[q_idx] = answer` of the `ans_` branch, a no-op when
the event is rejected. -/
def record_selection (questions : List SubQuestion) (answers : List (Int × String))
    (ev : Int × Int) : List (Int × String) :=
  match select_answer questions ev.1 ev.2 with
  | some answer => dinsert ev.1 answer answers
  | none => answers

/-- The response-list construction of the `submit` branch:
`for q_idx in range(len(pending.questions)): if q_idx in pending.answers: ...append(...)`. -/
def build_responses (questions : List SubQuestion) (answers : List (Int × String)) :
    List String :=
  (List.range questions.length).filterMap (fun q_idx => dget ((q_idx : Nat) : Int) answers)

/-- Acknowledgments `bot.answer_callback_query` can send from
`handle_callback` (the string sent for `selected` is `answer[:20]`). -/
inductive CbReply where
  | expired
  | alreadyAnswered
  | selectFirst
  | noAnswers
  | sent (n : Nat)
  | failedTmux
  | selected (shown : String)
  | invalidOption
  | unknownAction
  | errorProcessing
deriving DecidableEq

/-- `handle_callback` (the inline-button handler), as a store transformer
returning the acknowledgment.  The keyboard-editing calls are channel I/O
and are not part of the state. -/
def handle_callback (env : String → Bool) (s : SessionStore) (msg_id : Int)
    (data : String) : SessionStore × CbReply :=
  match dget msg_id s.message_id_map with
  | none => (s, CbReply.expired)
  | some qid =>
  if qid = "" then (s, CbReply.expired)
  else
  match dget qid s.pending with
  | none => (s, CbReply.expired)
  | some pending =>
    if pending.answered then (s, CbReply.alreadyAnswered)
    else if data = "submit" then
      if pending.answers = [] then (s, CbReply.selectFirst)
      else
        let responses := build_responses pending.questions pending.answers
        if responses = [] then (s, CbReply.noAnswers)
        else if (inject_multiple_responses_to_tmux env pending.tmux_location responses).1 then
          (mark_answered s pending.question_id, CbReply.sent responses.length)
        else (s, CbReply.failedTmux)
    else if startsWithAns data then
      match parse_ans data with
      | some (q_idx, opt_idx) =>
        match pyIndex pending.questions q_idx with
        | none => (s, CbReply.errorProcessing)
        | some q =>
          if opt_idx < (q.options.length : Int) then
            match pyIndex q.options opt_idx with
            | none => (s, CbReply.errorProcessing)
            | some opt =>
              let answer := labelOf opt_idx opt
              let pending2 := dmodify qid (addAnswer q_idx answer) s.pending
              ({ s with pending := pending2 }, CbReply.selected (answer.take 20))
          else (s, CbReply.invalidOption)
      | none => (s, CbReply.errorProcessing)
    else (s, CbReply.unknownAction)

/-! ### Telegram message handler and dispatch -/

/-- Acknowledgments `bot.reply_to` can send from `handle_message`. -/
inductive MsgReply where
  | sentToClaude
  | failedTmux
  | noPending
deriving DecidableEq

/-- `handle_message` (the authorized text-message handler). -/
def handle_message (env : String → Bool) (s : SessionStore) (reply_to : Option Int)
    (text : String) : SessionStore × MsgReply :=
  let response_text := text.trim
  let viaReply : Option PendingQuestion :=
    match reply_to with
    | some mid =>
      match get_by_message_id s mid with
      | some p => if p.answered then none else some p
      | none => none
    | none => none
  match viaReply with
  | some pending =>
    if (inject_response_to_tmux env pending.tmux_location response_text).1 then
      (mark_answered s pending.question_id, MsgReply.sentToClaude)
    else (s, MsgReply.failedTmux)
  | none =>
    match get_latest_unanswered s with
    | some pending =>
      if (inject_response_to_tmux env pending.tmux_location response_text).1 then
        (mark_answered s pending.question_id, MsgReply.sentToClaude)
      else (s, MsgReply.failedTmux)
    | none => (s, MsgReply.noPending)

/-- An inbound human event: a typed message (`chat_id` is the sender chat)
or an inline-button click (`chat_id` is `call.message.chat.id`, the chat
holding the clicked message — the quantity the handler filters test). -/
inductive Event where
  | msg (chat_id : Int) (reply_to : Option Int) (text : String)
  | cb (chat_id : Int) (msg_id : Int) (data : String)
deriving DecidableEq

/-- What goes back over the channel for one inbound event. -/
inductive Reply where
  | unauthorizedNote
  | msgReply (r : MsgReply)
  | cbReply (r : CbReply)
deriving DecidableEq

/-- Dispatch of one inbound update across the registered handlers, with
their `func=...` filters: a message goes to `handle_message` when
`m.chat.id == TELEGRAM_CHAT_ID` and to `handle_unauthorized` otherwise
(which only replies and logs); a callback query goes to `handle_callback`
when `call.message.chat.id == TELEGRAM_CHAT_ID` and matches no handler at
all otherwise, so it is dropped with no acknowledgment. -/
def dispatch (authorized_chat : Int) (env : String → Bool) (s : SessionStore) :
    Event → SessionStore × List Reply
  | Event.msg chat reply_to text =>
    if chat = authorized_chat then
      let r := handle_message env s reply_to text
      (r.1, [Reply.msgReply r.2])
    else (s, [Reply.unauthorizedNote])
  | Event.cb chat msg_id data =>
    if chat = authorized_chat then
      let r := handle_callback env s msg_id data
      (r.1, [Reply.cbReply r.2])
    else (s, [])

/-! ### Specification-side predicates and concrete fixtures -/

/-- Amended selections invariant: every key of an `answers` mapping is a
valid Python index into the owning entry's `questions` list, i.e. lies in
the interval `[-len(questions), len(questions))`. -/
def StoreInv (s : SessionStore) : Prop :=
  ∀ kv ∈ s.pending, ∀ p ∈ kv.2.answers,
    -((kv.2.questions.length : Int)) ≤ p.1 ∧ p.1 < (kv.2.questions.length : Int)

instance (s : SessionStore) : Decidable (StoreInv s) := by
  unfold StoreInv
  infer_instance

/-- First selection event carrying sub-question index `k`. -/
def findSel (es : List (Int × Int)) (k : Int) : Option (Int × Int) :=
  es.find? (fun ev => ev.1 = k)

/-- A selection event with in-range non-negative indices (the events the
bot's own keyboard produces). -/
def ValidSel (questions : List SubQuestion) (ev : Int × Int) : Prop :=
  0 ≤ ev.1 ∧ 0 ≤ ev.2 ∧ (select_answer questions ev.1 ev.2).isSome = true

instance (questions : List SubQuestion) (ev : Int × Int) :
    Decidable (ValidSel questions ev) := by
  unfold ValidSel
  infer_instance

def optA : OptionItem := ⟨some "A", none⟩
def optB : OptionItem := ⟨some "B", none⟩
def subq1 : SubQuestion := ⟨some "Pick one", [optA, optB], false⟩
def subq2 : SubQuestion := ⟨some "Pick again", [optB], false⟩

/-- A store holding one freshly registered two-sub-question question
(question id `sess_5`, Telegram message id 10), built by `handle_notify`
from the empty store. -/
def exStore : SessionStore :=
  (handle_notify store0 "sess" "claude:0.1" [subq1, subq2] "/tmp/p" 5 100 10).1

/-- The single entry `exStore` holds. -/
def exPending0 : PendingQuestion :=
  { question_id := "sess_5", session_id := "sess", tmux_location := "claude:0.1"
    questions := [subq1, subq2], timestamp := 100, telegram_message_id := 10
    cwd := "/tmp/p", answered := false, answers := [] }

/-! ### Association-list lemmas -/

theorem dget_dinsert {κ α : Type} [DecidableEq κ] (k k2 : κ) (v : α) (l : List (κ × α)) :
    dget k (dinsert k2 v l) = if k2 = k then some v else dget k l := by
  induction l with
  | nil => simp [dget, dinsert]
  | cons p rest ih =>
    obtain ⟨k3, v3⟩ := p
    simp only [dinsert]
    by_cases h3 : k3 = k2
    · rw [if_pos h3]
      by_cases hk : k2 = k
      · simp [dget, hk]
      · have h3k : ¬k3 = k := by rw [h3]; exact hk
        simp [dget, hk, h3k]
    · rw [if_neg h3]
      by_cases hk : k3 = k
      · have hk2 : ¬k2 = k := by
          intro h
          exact h3 (by rw [hk, h])
        simp [dget, hk, hk2]
      · simp [dget, hk, ih]

theorem mem_dinsert {κ α : Type} [DecidableEq κ] (k : κ) (v : α) (l : List (κ × α)) :
    ∀ p ∈ dinsert k v l, p = (k, v) ∨ p ∈ l := by
  induction l with
  | nil =>
    intro p hp
    simp only [dinsert, List.mem_singleton] at hp
    exact Or.inl hp
  | cons q rest ih =>
    obtain ⟨k3, v3⟩ := q
    intro p hp
    simp only [dinsert] at hp
    by_cases h3 : k3 = k
    · rw [if_pos h3] at hp
      rcases List.mem_cons.mp hp with h | h
      · exact Or.inl h
      · exact Or.inr (List.mem_cons_of_mem _ h)
    · rw [if_neg h3] at hp
      rcases List.mem_cons.mp hp with h | h
      · exact Or.inr (List.mem_cons.mpr (Or.inl h))
      · rcases ih p h with h2 | h2
        · exact Or.inl h2
        · exact Or.inr (List.mem_cons_of_mem _ h2)

theorem dget_dmodify {κ α : Type} [DecidableEq κ] (k k2 : κ) (f : α → α)
    (l : List (κ × α)) :
    dget k2 (dmodify k f l) = if k = k2 then (dget k l).map f else dget k2 l := by
  induction l with
  | nil => simp [dget, dmodify]
  | cons p rest ih =>
    obtain ⟨k3, v3⟩ := p
    simp only [dmodify]
    by_cases h3 : k3 = k
    · rw [if_pos h3]
      by_cases hk : k = k2
      · have h32 : k3 = k2 := by rw [h3, hk]
        simp [dget, h32, h3, hk]
      · have h32 : ¬k3 = k2 := by
          intro h
          exact hk (by rw [← h3, h])
        simp [dget, h32, hk]
    · rw [if_neg h3]
      by_cases hk : k3 = k2
      · have hkk : ¬k = k2 := by
          intro h
          exact h3 (by rw [hk, h])
        simp [dget, hk, hkk]
      · simp [dget, hk, ih, h3]

theorem dmodify_eq_of_dget_none {κ α : Type} [DecidableEq κ] (k : κ) (f : α → α)
    {l : List (κ × α)} (h : dget k l = none) : dmodify k f l = l := by
  induction l with
  | nil => rfl
  | cons p rest ih =>
    obtain ⟨k3, v3⟩ := p
    by_cases h3 : k3 = k
    · simp [dget, h3] at h
    · simp only [dget, if_neg h3] at h
      simp [dmodify, h3, ih h]

theorem mem_dmodify {κ α : Type} [DecidableEq κ] (k : κ) (f : α → α) (l : List (κ × α)) :
    ∀ p ∈ dmodify k f l, p ∈ l ∨ ∃ v, dget k l = some v ∧ p = (k, f v) := by
  induction l with
  | nil =>
    intro p hp
    simp [dmodify] at hp
  | cons q rest ih =>
    obtain ⟨k3, v3⟩ := q
    intro p hp
    simp only [dmodify] at hp
    by_cases h3 : k3 = k
    · rw [if_pos h3] at hp
      rcases List.mem_cons.mp hp with h | h
      · refine Or.inr ⟨v3, ?_, ?_⟩
        · simp [dget, h3]
        · rw [h, h3]
      · exact Or.inl (List.mem_cons_of_mem _ h)
    · rw [if_neg h3] at hp
      rcases List.mem_cons.mp hp with h | h
      · exact Or.inl (List.mem_cons.mpr (Or.inl h))
      · rcases ih p h with h2 | h2
        · exact Or.inl (List.mem_cons_of_mem _ h2)
        · rcases h2 with ⟨v, hv, hpv⟩
          refine Or.inr ⟨v, ?_, hpv⟩
          simp [dget, h3, hv]

theorem mem_dpop {κ α : Type} [DecidableEq κ] (k : κ) (l : List (κ × α)) :
    ∀ p ∈ dpop k l, p ∈ l := by
  induction l with
  | nil =>
    intro p hp
    simp [dpop] at hp
  | cons q rest ih =>
    obtain ⟨k3, v3⟩ := q
    intro p hp
    simp only [dpop] at hp
    by_cases h3 : k3 = k
    · rw [if_pos h3] at hp
      exact List.mem_cons_of_mem _ hp
    · rw [if_neg h3] at hp
      rcases List.mem_cons.mp hp with h | h
      · exact List.mem_cons.mpr (Or.inl h)
      · exact List.mem_cons_of_mem _ (ih p h)

/-- Bounds extracted from a successful Python subscription. -/
theorem pyIndex_some_bounds {α : Type} {xs : List α} {i : Int} {a : α}
    (h : pyIndex xs i = some a) :
    -((xs.length : Int)) ≤ i ∧ i < (xs.length : Int) := by
  unfold pyIndex at h
  split_ifs at h with h1 h2
  · have hlt : i.toNat < xs.length := by
      rcases List.get?_eq_some.mp h with ⟨hn, _⟩
      exact hn
    have : (i.toNat : Int) = i := Int.toNat_of_nonneg h1
    omega
  · have : ((-i).toNat : Int) = -i := Int.toNat_of_nonneg (by omega)
    omega

/-- Turning a fold over successive appends into one flat list. -/
theorem foldl_append_eq_join {α β : Type} (g : α → List β) (l : List α) (acc : List β) :
    l.foldl (fun a x => a ++ g x) acc = acc ++ (l.map g).flatten := by
  induction l generalizing acc with
  | nil => simp
  | cons x xs ih => simp [ih, List.append_assoc]

theorem dget_eq_none_of_not_mem {κ α : Type} [DecidableEq κ] {k : κ} {l : List (κ × α)}
    (h : k ∉ l.map Prod.fst) : dget k l = none := by
  induction l with
  | nil => rfl
  | cons q rest ih =>
    obtain ⟨k3, v3⟩ := q
    simp only [List.map_cons, List.mem_cons] at h
    push_neg at h
    have h3 : ¬k3 = k := fun e => h.1 e.symm
    simp [dget, h3, ih h.2]

theorem dget_some_mem {κ α : Type} [DecidableEq κ] {k : κ} {v : α} {l : List (κ × α)}
    (h : dget k l = some v) : (k, v) ∈ l := by
  induction l with
  | nil => simp [dget] at h
  | cons q rest ih =>
    obtain ⟨k3, v3⟩ := q
    by_cases h3 : k3 = k
    · rw [← h3] at h ⊢
      simp only [dget, if_pos rfl] at h
      rw [← Option.some.inj h]
      exact List.mem_cons_self _ _
    · simp only [dget, if_neg h3] at h
      exact List.mem_cons_of_mem _ (ih h)

theorem dpop_eq_of_dget_none {κ α : Type} [DecidableEq κ] (k : κ) {l : List (κ × α)}
    (h : dget k l = none) : dpop k l = l := by
  induction l with
  | nil => rfl
  | cons p rest ih =>
    obtain ⟨k3, v3⟩ := p
    by_cases h3 : k3 = k
    · simp [dget, h3] at h
    · simp only [dget, if_neg h3] at h
      simp [dpop, h3, ih h]

/-- With pairwise-distinct keys (the dict invariant), popping a key is the
same as filtering it out. -/
theorem dpop_eq_filter {κ α : Type} [DecidableEq κ] (k : κ) {l : List (κ × α)}
    (hnd : (l.map Prod.fst).Nodup) :
    dpop k l = l.filter (fun kv => kv.1 ≠ k) := by
  induction l with
  | nil => rfl
  | cons q rest ih =>
    obtain ⟨k3, v3⟩ := q
    rw [List.map_cons, List.nodup_cons] at hnd
    by_cases h3 : k3 = k
    · simp only [dpop, if_pos h3, List.filter_cons]
      rw [if_neg (by simp [h3])]
      refine (List.filter_eq_self.mpr ?_).symm
      intro kv hkv
      simp only [decide_eq_true_eq]
      intro e
      apply hnd.1
      show k3 ∈ List.map Prod.fst rest
      rw [h3, ← e]
      exact List.mem_map.mpr ⟨kv, hkv, rfl⟩
    · simp only [dpop, if_neg h3, List.filter_cons]
      rw [if_pos (by simp [h3]), ih hnd.2]

theorem keys_nodup_dpop {κ α : Type} [DecidableEq κ] (k : κ) {l : List (κ × α)}
    (hnd : (l.map Prod.fst).Nodup) : ((dpop k l).map Prod.fst).Nodup := by
  rw [dpop_eq_filter k hnd]
  exact List.Nodup.sublist ((List.filter_sublist l).map Prod.fst) hnd

/-- Looking a key up after a filter, when keys are pairwise distinct. -/
theorem dget_filter {κ α : Type} [DecidableEq κ] (k : κ) (p : κ × α → Bool)
    {l : List (κ × α)} (hnd : (l.map Prod.fst).Nodup) :
    dget k (l.filter p) =
      match dget k l with
      | some v => if p (k, v) then some v else none
      | none => none := by
  induction l with
  | nil => simp [dget]
  | cons q rest ih =>
    obtain ⟨k3, v3⟩ := q
    rw [List.map_cons, List.nodup_cons] at hnd
    by_cases h3 : k3 = k
    · subst h3
      simp only [dget, if_pos rfl]
      by_cases hp : p (k3, v3)
      · simp [List.filter_cons, hp, dget]
      · simp only [List.filter_cons, if_neg hp]
        have hnone : dget k3 (rest.filter p) = none := by
          apply dget_eq_none_of_not_mem
          intro hmem
          rcases List.mem_map.mp hmem with ⟨kv, hkv, he⟩
          exact hnd.1 (List.mem_map.mpr ⟨kv, List.mem_of_mem_filter hkv, he⟩)
        rw [hnone]
        simp [hp]
    · simp only [dget, if_neg h3]
      by_cases hp : p (k3, v3)
      · simp only [List.filter_cons, if_pos hp, dget, if_neg h3]
        exact ih hnd.2
      · simp only [List.filter_cons, if_neg hp]
        exact ih hnd.2

theorem dget_filter_some {κ α : Type} [DecidableEq κ] {k : κ} {p : κ × α → Bool}
    {l : List (κ × α)} {v : α} (hnd : (l.map Prod.fst).Nodup)
    (h : dget k l = some v) :
    dget k (l.filter p) = if p (k, v) then some v else none := by
  have hd := dget_filter k p hnd (l := l)
  rw [h] at hd
  exact hd

theorem dget_filter_none {κ α : Type} [DecidableEq κ] {k : κ} {p : κ × α → Bool}
    {l : List (κ × α)} (hnd : (l.map Prod.fst).Nodup)
    (h : dget k l = none) :
    dget k (l.filter p) = none := by
  have hd := dget_filter k p hnd (l := l)
  rw [h] at hd
  exact hd

theorem removeQid_pending (st : SessionStore) (qid : String) :
    (removeQid st qid).pending = dpop qid st.pending := by
  unfold removeQid
  rcases h : dget qid st.pending with _ | q
  · rw [dpop_eq_of_dget_none qid h]
  · rfl

theorem removeQid_keys_nodup (st : SessionStore) (qid : String)
    (hnd : (st.pending.map Prod.fst).Nodup) :
    ((removeQid st qid).pending.map Prod.fst).Nodup := by
  rw [removeQid_pending]
  exact keys_nodup_dpop qid hnd

/-- The removal loop of `cleanup_old`, characterized: it keeps exactly the
entries whose key is not in the removal list. -/
theorem foldl_removeQid_pending (L : List String) (st : SessionStore)
    (hnd : (st.pending.map Prod.fst).Nodup) :
    (L.foldl removeQid st).pending = st.pending.filter (fun kv => kv.1 ∉ L) := by
  induction L generalizing st with
  | nil =>
    simp only [List.foldl_nil]
    refine (List.filter_eq_self.mpr ?_).symm
    intro kv _
    simp
  | cons q L2 ih =>
    rw [List.foldl_cons, ih (removeQid st q) (removeQid_keys_nodup st q hnd),
      removeQid_pending, dpop_eq_filter q hnd, List.filter_filter]
    refine List.filter_congr ?_
    intro kv _
    by_cases h1 : kv.1 = q <;> by_cases h2 : kv.1 ∈ L2 <;> simp [h1, h2]

/-- The store after `cleanup_old` keeps exactly the entries whose age does
not strictly exceed the threshold. -/
theorem cleanup_pending_filter (now maxAge : Int) (s : SessionStore)
    (hnd : (s.pending.map Prod.fst).Nodup) :
    (cleanup_old now maxAge s).1.pending
      = s.pending.filter (fun kv => now - kv.2.timestamp ≤ maxAge) := by
  unfold cleanup_old
  simp only
  rw [foldl_removeQid_pending _ _ hnd]
  refine List.filter_congr ?_
  intro kv hkv
  rw [decide_eq_decide]
  constructor
  · intro hnm
    by_contra hold
    apply hnm
    refine List.mem_map.mpr ⟨kv, ?_, rfl⟩
    rw [List.mem_filter]
    refine ⟨hkv, ?_⟩
    simp
    omega
  · intro hyoung hmem
    rcases List.mem_map.mp hmem with ⟨kv2, hkv2, he⟩
    rw [List.mem_filter] at hkv2
    have : kv2 = kv :=
      List.inj_on_of_nodup_map hnd hkv2.1 hkv he
    rw [this] at hkv2
    have hold := hkv2.2
    simp at hold
    omega

/-- Python `max(..., key=f)` as a left fold: the result is one of the
candidates. -/
theorem pymax_foldl_mem {α : Type} (f : α → Int) (x : α) (xs : List α) :
    xs.foldl (fun acc q => if f q > f acc then q else acc) x ∈ x :: xs := by
  induction xs generalizing x with
  | nil => simp
  | cons y ys ih =>
    simp only [List.foldl_cons]
    by_cases h : f y > f x
    · rw [if_pos h]
      exact List.mem_cons_of_mem _ (ih y)
    · rw [if_neg h]
      rcases List.mem_cons.mp (ih x) with h2 | h2
      · exact List.mem_cons.mpr (Or.inl h2)
      · exact List.mem_cons_of_mem _ (List.mem_cons_of_mem _ h2)

/-- Python `max(..., key=f)` as a left fold: the result's key dominates
every candidate's key. -/
theorem pymax_foldl_ge {α : Type} (f : α → Int) (x : α) (xs : List α) :
    ∀ z ∈ x :: xs, f z ≤ f (xs.foldl (fun acc q => if f q > f acc then q else acc) x) := by
  induction xs generalizing x with
  | nil =>
    intro z hz
    rw [List.mem_singleton] at hz
    subst hz
    simp
  | cons y ys ih =>
    intro z hz
    simp only [List.foldl_cons]
    by_cases h : f y > f x
    · rw [if_pos h]
      rcases List.mem_cons.mp hz with h2 | h2
      · have hy := ih y y (List.mem_cons_self _ _)
        rw [h2]
        omega
      · exact ih y z h2
    · rw [if_neg h]
      rcases List.mem_cons.mp hz with h2 | h2
      · rw [h2]
        exact ih x x (List.mem_cons_self _ _)
      · rcases List.mem_cons.mp h2 with h3 | h3
        · have hx := ih x x (List.mem_cons_self _ _)
          rw [h3]
          omega
        · exact ih x z (List.mem_cons_of_mem _ h3)

/-! ### Claim theorems -/

/-- C3: on a store whose keys are pairwise distinct (the dict invariant),
the sweep removes exactly the entries whose age strictly exceeds `maxAge`,
leaves every other entry unchanged (whether answered or not), and after the
sweep a removed entry is unreachable by question identifier, while anything
still reachable through an external-message reference is a young entry. -/
theorem c3_sweep_removes_exactly_old (s : SessionStore) (now maxAge : Int)
    (hnd : (s.pending.map Prod.fst).Nodup) :
    (∀ qid q0, dget qid s.pending = some q0 →
        dget qid (cleanup_old now maxAge s).1.pending
          = if now - q0.timestamp > maxAge then none else some q0)
    ∧ (∀ qid, dget qid s.pending = none →
        dget qid (cleanup_old now maxAge s).1.pending = none)
    ∧ (∀ m q, get_by_message_id (cleanup_old now maxAge s).1 m = some q →
        now - q.timestamp ≤ maxAge) := by
  have hp := cleanup_pending_filter now maxAge s hnd
  have hkey : ∀ qid q0, dget qid s.pending = some q0 →
      dget qid (cleanup_old now maxAge s).1.pending
        = if now - q0.timestamp > maxAge then none else some q0 := by
    intro qid q0 h0
    rw [hp, dget_filter_some hnd h0]
    by_cases hold : now - q0.timestamp > maxAge
    · rw [if_pos hold, if_neg (by simp only [decide_eq_true_eq]; omega)]
    · rw [if_neg hold, if_pos (by simp only [decide_eq_true_eq]; omega)]
  refine ⟨hkey, ?_, ?_⟩
  · intro qid h0
    rw [hp, dget_filter_none hnd h0]
  · intro m q hq
    unfold get_by_message_id at hq
    rcases hm : dget m (cleanup_old now maxAge s).1.message_id_map with _ | qid
    · rw [hm] at hq
      exact Option.noConfusion hq
    · rw [hm] at hq
      have hq2 : (if qid = "" then none
          else dget qid (cleanup_old now maxAge s).1.pending) = some q := hq
      by_cases hq0 : qid = ""
      · rw [if_pos hq0] at hq2
        exact Option.noConfusion hq2
      · rw [if_neg hq0] at hq2
        rcases h0 : dget qid s.pending with _ | q0
        · rw [hp, dget_filter_none hnd h0] at hq2
          exact Option.noConfusion hq2
        · have hv := hkey qid q0 h0
          rw [hq2] at hv
          by_cases hold : now - q0.timestamp > maxAge
          · rw [if_pos hold] at hv
            exact Option.noConfusion hv
          · rw [if_neg hold] at hv
            have hqe : q = q0 := Option.some.inj hv
            rw [hqe]
            omega

theorem c3_witness :
    dget "sess_5" (cleanup_old 5000 10 exStore).1.pending
      = (if (5000 : Int) - exPending0.timestamp > 10 then none else some exPending0) :=
  (c3_sweep_removes_exactly_old exStore 5000 10 (by decide)).1 "sess_5" exPending0
    (by decide)

/-- C4 counterexample: at a store holding one entry of age 4900 with
threshold 10 the sweep removes exactly one entry, yet the Python function
returns `None`, not the count 1 the claim requires. -/
theorem c4_counterexample :
    (cleanup_old 5000 10 exStore).2 = none
    ∧ exStore.pending.length - (cleanup_old 5000 10 exStore).1.pending.length = 1
    ∧ (cleanup_old 5000 10 exStore).2 ≠ some 1 := by
  decide

/-- C4 amended: the sweep returns no value at all (the Python body has no
`return`, so every caller receives `None`); the number of entries it
removes is observable only through the store itself, whose pending map
afterwards holds exactly the entries with age at most `maxAge`. -/
theorem c4_amended_sweep_returns_none (s : SessionStore) (now maxAge : Int)
    (hnd : (s.pending.map Prod.fst).Nodup) :
    (cleanup_old now maxAge s).2 = none
    ∧ (cleanup_old now maxAge s).1.pending
        = s.pending.filter (fun kv => now - kv.2.timestamp ≤ maxAge) :=
  ⟨rfl, cleanup_pending_filter now maxAge s hnd⟩

theorem c4_amended_witness :
    (cleanup_old 5000 10 exStore).2 = none
    ∧ (cleanup_old 5000 10 exStore).1.pending
        = exStore.pending.filter (fun kv => (5000 : Int) - kv.2.timestamp ≤ 10) :=
  c4_amended_sweep_returns_none exStore 5000 10 (by decide)

theorem StoreInv_mark_answered (s : SessionStore) (qid : String) (h : StoreInv s) :
    StoreInv (mark_answered s qid) := by
  intro kv hkv p hp
  simp only [mark_answered] at hkv
  rcases mem_dmodify qid (fun q => { q with answered := true }) s.pending kv hkv with
    hm | ⟨v, hv, he⟩
  · exact h kv hm p hp
  · rw [he] at hp ⊢
    exact h (qid, v) (dget_some_mem hv) p hp

theorem StoreInv_record (s : SessionStore) (qid : String) (q_idx : Int) (answer : String)
    (h : StoreInv s)
    (hq : ∀ v, dget qid s.pending = some v →
        -((v.questions.length : Int)) ≤ q_idx ∧ q_idx < (v.questions.length : Int)) :
    StoreInv { s with pending := dmodify qid (addAnswer q_idx answer) s.pending } := by
  intro kv hkv p hp
  simp only at hkv
  rcases mem_dmodify qid (addAnswer q_idx answer) s.pending kv hkv with hm | ⟨v, hv, he⟩
  · exact h kv hm p hp
  · rw [he] at hp ⊢
    rcases mem_dinsert q_idx answer v.answers p hp with hpe | hpm
    · rw [hpe]
      exact hq v hv
    · exact h (qid, v) (dget_some_mem hv) p hpm

theorem StoreInv_add (s : SessionStore) (q : PendingQuestion) (h : StoreInv s)
    (hq : q.answers = []) : StoreInv (add_question s q) := by
  intro kv hkv p hp
  simp only [add_question] at hkv
  rcases mem_dinsert q.question_id q s.pending kv hkv with he | hm
  · rw [he] at hp
    rw [hq] at hp
    simp at hp
  · exact h kv hm p hp

theorem StoreInv_removeQid (st : SessionStore) (qid : String) (h : StoreInv st) :
    StoreInv (removeQid st qid) := by
  intro kv hkv p hp
  rw [removeQid_pending] at hkv
  exact h kv (mem_dpop qid st.pending kv hkv) p hp

theorem StoreInv_foldl_removeQid (L : List String) (st : SessionStore) (h : StoreInv st) :
    StoreInv (L.foldl removeQid st) := by
  induction L generalizing st with
  | nil => exact h
  | cons q L2 ih => exact ih (removeQid st q) (StoreInv_removeQid st q h)

theorem StoreInv_handle_callback (env : String → Bool) (s : SessionStore) (m : Int)
    (d : String) (h : StoreInv s) : StoreInv (handle_callback env s m d).1 := by
  unfold handle_callback
  split
  · exact h
  rename_i qid hm
  split
  · exact h
  rename_i hq0
  split
  · exact h
  rename_i pending hpending
  split
  · exact h
  rename_i hans
  split
  · split
    · exact h
    dsimp only
    split
    · exact h
    split
    · exact StoreInv_mark_answered s pending.question_id h
    · exact h
  · split
    · split
      · rename_i hd2 pr q_idx opt_idx hparse
        split
        · exact h
        rename_i q hpy
        split
        · split
          · exact h
          · rename_i opt hopt
            dsimp only
            refine StoreInv_record s qid q_idx (labelOf opt_idx opt) h ?_
            intro v hv
            have hvp : v = pending := Option.some.inj (hv.symm.trans hpending)
            rw [hvp]
            exact pyIndex_some_bounds hpy
        · exact h
      · exact h
    · exact h

theorem StoreInv_handle_message (env : String → Bool) (s : SessionStore)
    (reply_to : Option Int) (text : String) (h : StoreInv s) :
    StoreInv (handle_message env s reply_to text).1 := by
  unfold handle_message
  dsimp only
  repeat' split
  all_goals
    first
      | exact h
      | exact StoreInv_mark_answered s _ h

theorem StoreInv_dispatch (auth : Int) (env : String → Bool) (s : SessionStore)
    (e : Event) (h : StoreInv s) : StoreInv (dispatch auth env s e).1 := by
  cases e with
  | msg chat reply_to text =>
    by_cases hc : chat = auth
    · have he : (dispatch auth env s (Event.msg chat reply_to text)).1
          = (handle_message env s reply_to text).1 := by
        simp [dispatch, hc]
      rw [he]
      exact StoreInv_handle_message env s reply_to text h
    · have he : (dispatch auth env s (Event.msg chat reply_to text)).1 = s := by
        simp [dispatch, hc]
      rw [he]
      exact h
  | cb chat mid data =>
    by_cases hc : chat = auth
    · have he : (dispatch auth env s (Event.cb chat mid data)).1
          = (handle_callback env s mid data).1 := by
        simp [dispatch, hc]
      rw [he]
      exact StoreInv_handle_callback env s mid data h
    · have he : (dispatch auth env s (Event.cb chat mid data)).1 = s := by
        simp [dispatch, hc]
      rw [he]
      exact h

/-- C5 counterexample: from a reachable store holding one question with
two sub-questions, the callback event `ans_-1_0` (a well-formed integer
encoding a client can send) is accepted — Python indexes `questions[-1]`
from the back — and writes the key `-1` into `selections`, which is not a
valid index in `0..len(subQuestions)-1`. -/
theorem c5_counterexample :
    ((dget "sess_5"
        (handle_callback (fun _ => true) exStore 10 "ans_-1_0").1.pending).map
          (fun p => p.answers)) = some [((-1 : Int), "B")]
    ∧ ¬(0 ≤ (-1 : Int)) := by
  decide

/-- C5 amended: at every reachable state, every key of a `selections`
mapping lies in the Python-valid index range `[-len(subQuestions),
len(subQuestions))` of the owning question — and this range, rather than
`0..len(subQuestions)-1`, is tight, because negative in-range indices are
accepted through Python's backward indexing.  The invariant holds
initially and is preserved by every store-mutating operation: both hook
registrations, the dispatch of any inbound Telegram event (any chat,
any callback payload), and the expiry sweep. -/
theorem c5_amended_selection_keys_in_python_range
    (s : SessionStore) (h : StoreInv s) (auth : Int) (env : String → Bool) (e : Event)
    (sid loc cwd : String) (qs : List SubQuestion) (ms now mid now2 maxAge : Int) :
    StoreInv (handle_notify s sid loc qs cwd ms now mid).1
    ∧ StoreInv (handle_stop s loc ms now mid).1
    ∧ StoreInv (dispatch auth env s e).1
    ∧ StoreInv (cleanup_old now2 maxAge s).1 := by
  refine ⟨?_, ?_, StoreInv_dispatch auth env s e h, StoreInv_foldl_removeQid _ s h⟩
  · unfold handle_notify
    split
    · exact h
    · exact StoreInv_add s _ h rfl
  · exact StoreInv_add s _ h rfl

theorem c5_amended_witness :
    StoreInv exStore
    ∧ (StoreInv (handle_notify exStore "s2" "t:0" [subq1] "" 7 101 11).1
      ∧ StoreInv (handle_stop exStore "t:0" 7 101 11).1
      ∧ StoreInv (dispatch 1 (fun _ => true) exStore (Event.cb 1 10 "ans_-1_0")).1
      ∧ StoreInv (cleanup_old 5000 10 exStore).1) :=
  ⟨by decide,
    c5_amended_selection_keys_in_python_range exStore (by decide) 1 (fun _ => true)
      (Event.cb 1 10 "ans_-1_0") "s2" "t:0" "" [subq1] 7 101 11 5000 10⟩

theorem filterMap_ext {α β : Type} (f g : α → Option β) (l : List α)
    (h : ∀ a ∈ l, f a = g a) : l.filterMap f = l.filterMap g := by
  induction l with
  | nil => rfl
  | cons x xs ih =>
    rw [List.filterMap_cons, List.filterMap_cons, h x (List.mem_cons_self _ _),
      ih (fun a ha => h a (List.mem_cons_of_mem _ ha))]

/-- Under distinct event indices, the unique event for a present index. -/
theorem findSel_self (es : List (Int × Int)) (hnd : (es.map Prod.fst).Nodup)
    {ev : Int × Int} (hm : ev ∈ es) : findSel es ev.1 = some ev := by
  rcases hf : findSel es ev.1 with _ | ev2
  · exfalso
    unfold findSel at hf
    rw [List.find?_eq_none] at hf
    have := hf ev hm
    simp at this
  · unfold findSel at hf
    have h1 := List.find?_some hf
    have h2 := List.mem_of_find?_eq_some hf
    have hee : ev2 = ev := List.inj_on_of_nodup_map hnd h2 hm (by simpa using h1)
    rw [hee]

/-- The first matching event is permutation-invariant once indices are
pairwise distinct. -/
theorem findSel_perm (es es2 : List (Int × Int)) (hperm : es.Perm es2)
    (hnd : (es.map Prod.fst).Nodup) (k : Int) : findSel es k = findSel es2 k := by
  have hnd2 : (es2.map Prod.fst).Nodup := ((hperm.map Prod.fst).nodup_iff).mp hnd
  rcases hf : findSel es k with _ | ev
  · rcases hf2 : findSel es2 k with _ | ev2
    · rfl
    · exfalso
      unfold findSel at hf hf2
      rw [List.find?_eq_none] at hf
      have hm2 := List.mem_of_find?_eq_some hf2
      have hp2 := List.find?_some hf2
      exact absurd hp2 (hf ev2 (hperm.mem_iff.mpr hm2))
  · have hm := List.mem_of_find?_eq_some (by unfold findSel at hf; exact hf)
    have hp : ev.1 = k := by
      have := List.find?_some (show es.find? (fun e2 => e2.1 = k) = some ev from hf)
      simpa using this
    rw [← hp]
    exact (findSel_self es2 hnd2 (hperm.mem_iff.mp hm)).symm

/-- The `answers` dict after a fold of valid selection events with
pairwise-distinct indices: each key holds the label of its unique event. -/
theorem foldl_record_dget (qs : List SubQuestion) (es : List (Int × Int))
    (hnd : (es.map Prod.fst).Nodup) (hv : ∀ ev ∈ es, ValidSel qs ev)
    (a0 : List (Int × String)) (k : Int) :
    dget k (es.foldl (record_selection qs) a0)
      = match findSel es k with
        | some ev => select_answer qs ev.1 ev.2
        | none => dget k a0 := by
  induction es generalizing a0 with
  | nil => simp [findSel]
  | cons e rest ih =>
    rw [List.map_cons, List.nodup_cons] at hnd
    have hv2 : ∀ ev ∈ rest, ValidSel qs ev := fun ev hm => hv ev (List.mem_cons_of_mem _ hm)
    rw [List.foldl_cons, ih hnd.2 hv2]
    by_cases hk : e.1 = k
    · have hfind : findSel (e :: rest) k = some e := by
        unfold findSel
        exact List.find?_cons_of_pos _ (by simpa using hk)
      have hfrest : findSel rest k = none := by
        unfold findSel
        rw [List.find?_eq_none]
        intro ev hm
        simp only [decide_eq_true_eq]
        intro he
        apply hnd.1
        rw [← hk] at he
        rw [← he]
        exact List.mem_map.mpr ⟨ev, hm, rfl⟩
      simp only [hfrest, hfind]
      have hval := hv e (List.mem_cons_self _ _)
      rcases hsel : select_answer qs e.1 e.2 with _ | ans
      · exfalso
        rcases hval with ⟨_, _, hs⟩
        rw [hsel] at hs
        simp at hs
      · simp only [record_selection, hsel]
        rw [dget_dinsert, if_pos hk]
    · have hfind : findSel (e :: rest) k = findSel rest k := by
        unfold findSel
        exact List.find?_cons_of_neg _ (by simpa using hk)
      simp only [hfind]
      rcases hfr : findSel rest k with _ | ev
      · simp only [hfr]
        rcases hsel : select_answer qs e.1 e.2 with _ | ans
        · simp only [record_selection, hsel]
        · simp only [record_selection, hsel]
          rw [dget_dinsert, if_neg hk]
      · simp only [hfr]

/-- C6: folding any sequence of valid option-selection events with
pairwise-distinct sub-question indices into an empty `selections` mapping
and then building the submit response list yields the selected labels in
ascending sub-question index order, skipping unselected indices, and the
result is invariant under permuting the arrival order; moreover a later
selection for an index overrides whatever earlier events set there. -/
theorem c6_selection_aggregation (qs : List SubQuestion) (es es2 pre : List (Int × Int))
    (i j : Int) (hv : ∀ ev ∈ es, ValidSel qs ev) (hnd : (es.map Prod.fst).Nodup)
    (hperm : es.Perm es2) (hij : ValidSel qs (i, j)) :
    build_responses qs (es.foldl (record_selection qs) [])
        = build_responses qs (es2.foldl (record_selection qs) [])
    ∧ (∀ ev ∈ es, dget ev.1 (es.foldl (record_selection qs) [])
        = select_answer qs ev.1 ev.2)
    ∧ dget i ((pre ++ [(i, j)]).foldl (record_selection qs) [])
        = select_answer qs i j
    ∧ build_responses qs (es.foldl (record_selection qs) [])
        = (List.range qs.length).filterMap
            (fun k => match findSel es ((k : Nat) : Int) with
              | some ev => select_answer qs ev.1 ev.2
              | none => none) := by
  have hnd2 : (es2.map Prod.fst).Nodup := ((hperm.map Prod.fst).nodup_iff).mp hnd
  have hv2 : ∀ ev ∈ es2, ValidSel qs ev := fun ev hm => hv ev (hperm.mem_iff.mpr hm)
  refine ⟨?_, ?_, ?_, ?_⟩
  · unfold build_responses
    apply filterMap_ext
    intro k _
    rw [foldl_record_dget qs es hnd hv [], foldl_record_dget qs es2 hnd2 hv2 [],
      findSel_perm es es2 hperm hnd]
  · intro ev hm
    rw [foldl_record_dget qs es hnd hv []]
    simp only [findSel_self es hnd hm]
  · rw [List.foldl_append, List.foldl_cons, List.foldl_nil]
    rcases hij with ⟨_, _, hs⟩
    rcases hsel : select_answer qs i j with _ | ans
    · rw [hsel] at hs
      simp at hs
    · have : select_answer qs (i, j).1 (i, j).2 = some ans := hsel
      simp only [record_selection, this]
      rw [dget_dinsert, if_pos rfl]
  · unfold build_responses
    apply filterMap_ext
    intro k _
    rw [foldl_record_dget qs es hnd hv []]
    rcases hfr : findSel es ((k : Nat) : Int) with _ | ev <;> rfl

theorem c6_witness :
    (∀ ev ∈ [((1 : Int), (0 : Int)), ((0 : Int), (1 : Int))], ValidSel [subq1, subq2] ev)
    ∧ (([((1 : Int), (0 : Int)), ((0 : Int), (1 : Int))].map Prod.fst).Nodup)
    ∧ ([((1 : Int), (0 : Int)), ((0 : Int), (1 : Int))].Perm
        [((0 : Int), (1 : Int)), ((1 : Int), (0 : Int))])
    ∧ ValidSel [subq1, subq2] (0, 1)
    ∧ build_responses [subq1, subq2]
        ([((1 : Int), (0 : Int)), ((0 : Int), (1 : Int))].foldl
          (record_selection [subq1, subq2]) [])
      = build_responses [subq1, subq2]
        ([((0 : Int), (1 : Int)), ((1 : Int), (0 : Int))].foldl
          (record_selection [subq1, subq2]) []) := by
  refine ⟨by decide, by decide, List.Perm.swap _ _ _, by decide, ?_⟩
  exact (c6_selection_aggregation [subq1, subq2]
    [((1 : Int), (0 : Int)), ((0 : Int), (1 : Int))]
    [((0 : Int), (1 : Int)), ((1 : Int), (0 : Int))]
    [((0 : Int), (0 : Int))] 0 1 (by decide) (by decide)
    (List.Perm.swap _ _ _) (by decide)).1

/-- C7: `get_latest_unanswered` returns `None` exactly when every stored
entry is answered; otherwise it returns a stored, unanswered entry whose
`timestamp` is maximal among the unanswered entries. -/
theorem c7_latest_unanswered (s : SessionStore) :
    (get_latest_unanswered s = none ↔ ∀ kv ∈ s.pending, kv.2.answered = true)
    ∧ ∀ r, get_latest_unanswered s = some r →
        r.answered = false
        ∧ (∃ kv ∈ s.pending, kv.2 = r)
        ∧ ∀ kv ∈ s.pending, kv.2.answered = false → kv.2.timestamp ≤ r.timestamp := by
  rcases hf : (s.pending.map Prod.snd).filter (fun q => !q.answered) with _ | ⟨x, xs⟩
  · have hnone : get_latest_unanswered s = none := by
      unfold get_latest_unanswered
      rw [hf]
    constructor
    · constructor
      · intro _ kv hkv
        by_contra hans
        have hmem : kv.2 ∈ (s.pending.map Prod.snd).filter (fun q => !q.answered) := by
          rw [List.mem_filter]
          refine ⟨List.mem_map.mpr ⟨kv, hkv, rfl⟩, ?_⟩
          simp [Bool.not_eq_true] at hans
          simp [hans]
        rw [hf] at hmem
        simp at hmem
      · intro _
        exact hnone
    · intro r hr
      rw [hnone] at hr
      simp at hr
  · have hsome : get_latest_unanswered s =
        some (xs.foldl (fun acc q => if q.timestamp > acc.timestamp then q else acc) x) := by
      unfold get_latest_unanswered
      rw [hf]
    have hxmem : x ∈ (s.pending.map Prod.snd).filter (fun q => !q.answered) := by
      rw [hf]
      exact List.mem_cons_self _ _
    constructor
    · constructor
      · intro h
        rw [hsome] at h
        simp at h
      · intro hall
        exfalso
        rw [List.mem_filter] at hxmem
        rcases List.mem_map.mp hxmem.1 with ⟨kv, hkv, hx⟩
        have := hall kv hkv
        rw [hx] at this
        simp [this] at hxmem
    · intro r hr
      rw [hsome] at hr
      have hrm : r = xs.foldl
          (fun acc q => if q.timestamp > acc.timestamp then q else acc) x :=
        (Option.some.inj hr).symm
      have hmem : r ∈ x :: xs := by
        rw [hrm]
        exact pymax_foldl_mem (fun q => q.timestamp) x xs
      have hmemf : r ∈ (s.pending.map Prod.snd).filter (fun q => !q.answered) := by
        rw [hf]
        exact hmem
      rw [List.mem_filter] at hmemf
      refine ⟨by simpa using hmemf.2, ?_, ?_⟩
      · rcases List.mem_map.mp hmemf.1 with ⟨kv, hkv, hx⟩
        exact ⟨kv, hkv, hx⟩
      · intro kv hkv hans
        have hkvf : kv.2 ∈ x :: xs := by
          rw [← hf, List.mem_filter]
          exact ⟨List.mem_map.mpr ⟨kv, hkv, rfl⟩, by simp [hans]⟩
        have := pymax_foldl_ge (fun q => q.timestamp) x xs kv.2 hkvf
        rw [← hrm] at this
        exact this

theorem c7_witness :
    exPending0.answered = false
    ∧ (∃ kv ∈ exStore.pending, kv.2 = exPending0)
    ∧ ∀ kv ∈ exStore.pending, kv.2.answered = false →
        kv.2.timestamp ≤ exPending0.timestamp :=
  (c7_latest_unanswered exStore).2 exPending0 (by decide)

/-- C1 (code evaluated at the failing input): two registrations that carry
the same session identifier and are handled within the same epoch
millisecond receive the same `questionID` — both callers get `sess_170` —
and the second registration overwrites the first store entry, leaving a
single pending question. -/
theorem c1_question_id_collision :
    (handle_notify store0 "sess" "claude:0.1" [subq1] "" 170 100 10).2 = some "sess_170"
    ∧ (handle_notify (handle_notify store0 "sess" "claude:0.1" [subq1] "" 170 100 10).1
        "sess" "claude:0.1" [subq1] "" 170 100 11).2 = some "sess_170"
    ∧ (handle_notify (handle_notify store0 "sess" "claude:0.1" [subq1] "" 170 100 10).1
        "sess" "claude:0.1" [subq1] "" 170 100 11).1.pending.length = 1 := by
  decide

/-- C2 counterexample: for the single-response list `["a"]` the
multi-response injection path still sends the additional trailing confirm —
two `Enter` keystrokes reach the pane in total — whereas the claim's
degenerate single-response case allows exactly one. -/
theorem c2_counterexample :
    ((inject_multiple_responses_to_tmux (fun _ => true) "claude:0.1" ["a"]).2.filter
        (fun c => c = TmuxCall.sendEnter "claude:0.1")).length = 2
    ∧ ((inject_multiple_responses_to_tmux (fun _ => true) "claude:0.1" ["a"]).2.filter
        (fun c => c = TmuxCall.sendEnter "claude:0.1")).length ≠ 1 := by
  decide

/-- C2 amended: when the target location passes the guard and the session
probe succeeds, the delivered keystroke trace is exactly: the probe, then
for each response in list order the literal response followed by its own
confirm and a settle pause, then one more pause and one unconditional
trailing confirm — including for a list of exactly one response. -/
theorem c2_amended_injection_sequence (env : String → Bool) (loc : String)
    (responses : List String) (h1 : ¬(loc = "" ∨ loc = "unknown"))
    (h2 : env (session_name_of loc) = true) :
    inject_multiple_responses_to_tmux env loc responses =
      (true, TmuxCall.hasSession (session_name_of loc) ::
        ((responses.map (fun r => [TmuxCall.sendLiteral loc r, TmuxCall.sendEnter loc,
            TmuxCall.sleepCall])).flatten
          ++ [TmuxCall.sleepCall, TmuxCall.sendEnter loc])) := by
  simp only [inject_multiple_responses_to_tmux, if_neg h1, h2, if_pos]
  rw [foldl_append_eq_join]
  simp

theorem c2_amended_witness :
    (¬(("claude:0.1" : String) = "" ∨ ("claude:0.1" : String) = "unknown")
      ∧ (fun (_ : String) => true) (session_name_of "claude:0.1") = true)
    ∧ inject_multiple_responses_to_tmux (fun _ => true) "claude:0.1" ["a"] =
        (true, [TmuxCall.hasSession "claude", TmuxCall.sendLiteral "claude:0.1" "a",
          TmuxCall.sendEnter "claude:0.1", TmuxCall.sleepCall, TmuxCall.sleepCall,
          TmuxCall.sendEnter "claude:0.1"]) := by
  refine ⟨⟨by decide, rfl⟩, ?_⟩
  have h := c2_amended_injection_sequence (fun _ => true) "claude:0.1" ["a"]
    (by decide) rfl
  have e : session_name_of "claude:0.1" = "claude" := by decide
  rw [e] at h
  simpa using h

/-- C8 counterexample: a button click arriving from a chat (id 2) other
than the configured recipient (id 1) mutates nothing — but it also produces
no reply at all: the unauthorized acknowledgment the claim requires is
never sent for callback events. -/
theorem c8_counterexample :
    (dispatch 1 (fun _ => true) exStore (Event.cb 2 10 "submit")).1 = exStore
    ∧ Reply.unauthorizedNote ∉ (dispatch 1 (fun _ => true) exStore
        (Event.cb 2 10 "submit")).2 := by
  decide

/-- C8 amended: an inbound event from a chat other than the configured
recipient causes no store mutation; a typed message gets the visible
"unauthorized" acknowledgment, while a button click matches no registered
handler and is dropped with no acknowledgment at all. -/
theorem c8_amended_unauthorized (auth chat : Int) (env : String → Bool)
    (s : SessionStore) (reply_to : Option Int) (text : String) (mid : Int)
    (data : String) (h : chat ≠ auth) :
    dispatch auth env s (Event.msg chat reply_to text) = (s, [Reply.unauthorizedNote])
    ∧ dispatch auth env s (Event.cb chat mid data) = (s, []) := by
  simp [dispatch, h]

theorem c8_amended_witness :
    ((2 : Int) ≠ 1)
    ∧ dispatch 1 (fun _ => true) exStore (Event.msg 2 none "hello") =
        (exStore, [Reply.unauthorizedNote])
    ∧ dispatch 1 (fun _ => true) exStore (Event.cb 2 10 "submit") = (exStore, []) := by
  have h := c8_amended_unauthorized 1 2 (fun _ => true) exStore none "hello" 10 "submit"
    (by decide)
  exact ⟨by decide, h.1, h.2⟩

/-- C9: when the target tmux location is the empty string or the literal
string "unknown", both injection helpers return failure immediately with an
empty external trace: no session-existence probe and no keystroke is
issued. -/
theorem c9_unknown_location_guard (env : String → Bool) (resp : String)
    (send_enter : Bool) (responses : List String) (loc : String)
    (h : loc = "" ∨ loc = "unknown") :
    inject_response_to_tmux env loc resp send_enter = (false, [])
    ∧ inject_multiple_responses_to_tmux env loc responses = (false, []) := by
  rcases h with h | h <;> subst h <;>
    simp [inject_response_to_tmux, inject_multiple_responses_to_tmux]

theorem c9_witness :
    (("unknown" : String) = "" ∨ ("unknown" : String) = "unknown")
    ∧ (inject_response_to_tmux (fun _ => true) "unknown" "hi" true = (false, [])
      ∧ inject_multiple_responses_to_tmux (fun _ => true) "unknown" ["hi"] = (false, [])) :=
  ⟨Or.inr rfl,
    c9_unknown_location_guard (fun _ => true) "hi" true ["hi"] "unknown" (Or.inr rfl)⟩

/-- C10: `mark_answered` on a question identifier that is not in the store
leaves the store completely unchanged — no entry is added, no flag is set,
and the reverse index is untouched — and raises no error. -/
theorem c10_mark_answered_missing_noop (s : SessionStore) (qid : String)
    (h : dget qid s.pending = none) : mark_answered s qid = s := by
  cases s with
  | mk pending message_id_map =>
    simp only [mark_answered]
    rw [dmodify_eq_of_dget_none _ _ h]

theorem c10_witness :
    dget "missing" exStore.pending = none
    ∧ mark_answered exStore "missing" = exStore :=
  ⟨by decide, c10_mark_answered_missing_noop exStore "missing" (by decide)⟩

end ClaudeTelegramBot
